import Mathlib

/-!
# Out-of-sample confidence-based mislabel detection

A shallow embedding of the algorithmic core of the tutorial notebook
`handling-mislabeled-tabular-data/Handling_Mislabeled_Tabular_Data_to_Improve_Your_XGBoost_Model.ipynb`.
The notebook itself is glue around two library calls, `cross_val_predict`
(cross-validated out-of-sample probability estimation) and
`find_label_issues` (per-class-threshold label-issue scoring and ranking);
the bodies of those procedures are not part of this repository, so they are
modelled here from the repository's design specification, while the
notebook-level data handling (feature/label column selection, dropping of
flagged rows) is embedded from the notebook cells directly.

Probabilities are modelled as rationals.  A dataset is a list of observed
labels (natural numbers below the class count `k`) together with a list of
probability rows.
-/

/-- Modelled from the spec: the self-confidence of example `i` is the entry of
probability row `i` at the column of `i`'s observed label.  (The body of
`find_label_issues` is external to the repository.) -/
def selfConf (labels : List ℕ) (probs : List (List ℚ)) (i : ℕ) : ℚ :=
  (probs.getD i []).getD (labels.getD i 0) 0

/-- Modelled from the spec: the indices of all examples whose observed label is
class `c`. -/
def classIdx (labels : List ℕ) (c : ℕ) : List ℕ :=
  (List.range labels.length).filter (fun i => decide (labels.getD i 0 = c))

/-- Modelled from the spec: the per-class threshold of class `c` is the mean
self-confidence over all examples observed as `c`, reduced by a configurable
margin. -/
def classThreshold (labels : List ℕ) (probs : List (List ℚ)) (margin : ℚ) (c : ℕ) : ℚ :=
  (((classIdx labels c).map (selfConf labels probs)).sum / ((classIdx labels c).length : ℚ))
    - margin

/-- Modelled from the spec: example `i` is flagged when (a) its self-confidence
is strictly below its observed class's threshold AND (b) some other class
receives a strictly higher predicted probability than the observed class. -/
def flagged (labels : List ℕ) (probs : List (List ℚ)) (margin : ℚ) (k : ℕ) (i : ℕ) : Bool :=
  decide (selfConf labels probs i < classThreshold labels probs margin (labels.getD i 0)) &&
    (List.range k).any (fun j =>
      decide (j ≠ labels.getD i 0) &&
        decide ((probs.getD i []).getD (labels.getD i 0) 0 < (probs.getD i []).getD j 0))

/-- Modelled from the spec: the indices of all flagged examples, in original
index order. -/
def issueIndices (labels : List ℕ) (probs : List (List ℚ)) (margin : ℚ) (k : ℕ) : List ℕ :=
  (List.range labels.length).filter (flagged labels probs margin k)

/-- Modelled from the spec: the ranking order on example indices — ascending
self-confidence, ties broken by original index order. -/
def rankLe (labels : List ℕ) (probs : List (List ℚ)) (a b : ℕ) : Prop :=
  selfConf labels probs a < selfConf labels probs b ∨
    (selfConf labels probs a = selfConf labels probs b ∧ a ≤ b)

instance rankLeDecidable (labels : List ℕ) (probs : List (List ℚ)) :
    DecidableRel (rankLe labels probs) := fun a b => by
  unfold rankLe; infer_instance

instance rankLeTotal (labels : List ℕ) (probs : List (List ℚ)) :
    IsTotal ℕ (rankLe labels probs) := by
  constructor
  intro a b
  rcases lt_trichotomy (selfConf labels probs a) (selfConf labels probs b) with h | h | h
  · exact Or.inl (Or.inl h)
  · rcases Nat.le_total a b with hab | hab
    · exact Or.inl (Or.inr ⟨h, hab⟩)
    · exact Or.inr (Or.inr ⟨h.symm, hab⟩)
  · exact Or.inr (Or.inl h)

instance rankLeTrans (labels : List ℕ) (probs : List (List ℚ)) :
    IsTrans ℕ (rankLe labels probs) := by
  constructor
  intro a b c hab hbc
  rcases hab with hab | ⟨hab, hab'⟩
  · rcases hbc with hbc | ⟨hbc, _⟩
    · exact Or.inl (hab.trans hbc)
    · exact Or.inl (hbc ▸ hab)
  · rcases hbc with hbc | ⟨hbc, hbc'⟩
    · exact Or.inl (hab ▸ hbc)
    · exact Or.inr ⟨hab.trans hbc, hab'.trans hbc'⟩

/-- Modelled from the spec: `find_label_issues` returns the flagged example
indices ordered by ascending self-confidence, ties broken stably by original
index order.  (The body of the procedure is external to the repository.) -/
def find_label_issues (labels : List ℕ) (probs : List (List ℚ)) (margin : ℚ) (k : ℕ) :
    List ℕ :=
  List.insertionSort (rankLe labels probs) (issueIndices labels probs margin k)

/-- A probability row placing all mass on class `c` among `k` classes. -/
def oneHot (k c : ℕ) : List ℚ :=
  (List.range k).map (fun j => if j = c then 1 else 0)

/-! ## Cross-validated probability estimation

Modelled from the spec: `cross_val_predict` partitions the `n` example indices
into `F` disjoint, exhaustive folds; for each fold it trains a fresh classifier
on the complement and writes the predicted probability rows of the fold's
members into the output matrix.  The classifier is abstract: it receives the
list of training indices and predicts a probability row for an index. -/

/-- Modelled from the spec: the members of fold `f` — here the fold assignment
sends index `i` to fold `i % F`. -/
def foldMembers (n F f : ℕ) : List ℕ :=
  (List.range n).filter (fun i => decide (i % F = f))

/-- Modelled from the spec: the training indices for fold `f`, i.e. every
example outside fold `f`. -/
def trainIdx (n F f : ℕ) : List ℕ :=
  (List.range n).filter (fun i => decide (i % F ≠ f))

/-- Write the probability row `v i` into the matrix at every index `i` listed
in `members`. -/
def writeFoldRows (v : ℕ → List ℚ) (members : List ℕ)
    (m : List (Option (List ℚ))) : List (Option (List ℚ)) :=
  members.foldl (fun acc i => acc.set i (some (v i))) m

/-- Modelled from the spec: the cross-validated probability estimator.  Starting
from an unfilled (`none`) matrix, each fold `f` trains a classifier `C` on the
complement `trainIdx n F f` and writes the rows of its members. -/
def cross_val_predict (C : List ℕ → ℕ → List ℚ) (n F : ℕ) : List (Option (List ℚ)) :=
  (List.range F).foldl
    (fun m f => writeFoldRows (C (trainIdx n F f)) (foldMembers n F f) m)
    (List.replicate n none)

/-- Configuration errors signalled before any training begins. -/
inductive ConfigError where
  | tooFewExamples : ConfigError
  | tooFewFolds : ConfigError
deriving DecidableEq

/-- Modelled from the spec: the estimator signals a configuration error when
`n < 2` or `F < 2`, before any classifier training begins. -/
def cross_val_predict_checked (C : List ℕ → ℕ → List ℚ) (n F : ℕ) :
    Except ConfigError (List (Option (List ℚ))) :=
  if n < 2 then Except.error ConfigError.tooFewExamples
  else if F < 2 then Except.error ConfigError.tooFewFolds
  else Except.ok (cross_val_predict C n F)

/-- Modelled from the spec: per-fold estimation with a fallible classifier
factory.  Fitting on a fold's training set may fail (`none`); a failure aborts
the whole estimation without retries. -/
def cross_val_predict_folds (Cfit : List ℕ → Option (ℕ → List ℚ)) (n F : ℕ) :
    List ℕ → List (Option (List ℚ)) → Option (List (Option (List ℚ)))
  | [], m => some m
  | f :: fs, m =>
    match Cfit (trainIdx n F f) with
    | none => none
    | some mdl => cross_val_predict_folds Cfit n F fs (writeFoldRows mdl (foldMembers n F f) m)

/-- Modelled from the spec: the cross-validated estimator with a fallible
classifier factory; returns `none` as soon as any fold fails. -/
def cross_val_predict_fallible (Cfit : List ℕ → Option (ℕ → List ℚ)) (n F : ℕ) :
    Option (List (Option (List ℚ))) :=
  cross_val_predict_folds Cfit n F (List.range F) (List.replicate n none)

/-- Modelled from the spec: a probability row is valid when it has `k`
non-negative entries and sums to `1` within tolerance `tol`. -/
def validRow (k : ℕ) (tol : ℚ) (row : List ℚ) : Bool :=
  decide (row.length = k) && row.all (fun p => decide (0 ≤ p)) &&
    decide (|row.sum - 1| ≤ tol)

/-- The scorer's rejection of a probability matrix violating the classifier
contract. -/
inductive ScorerError where
  | invalidRow : ScorerError
deriving DecidableEq

/-- Modelled from the spec: the scorer validates every probability row before
use and rejects the matrix as a classifier contract violation when some row is
not a tolerance-valid probability vector. -/
def find_label_issues_checked (labels : List ℕ) (probs : List (List ℚ)) (margin : ℚ)
    (k : ℕ) (tol : ℚ) : Except ScorerError (List ℕ) :=
  if probs.all (validRow k tol) then Except.ok (find_label_issues labels probs margin k)
  else Except.error ScorerError.invalidRow

/-! ## The notebook's data handling

Embedded from the notebook cells: a training row carries the student id, three
exam scores, the encoded notes column, the ground-truth `letter_grade` and the
`noisy_letter_grade`. -/

/-- One row of the notebook's training frame `df_train` (after label
encoding). -/
structure StudentRow where
  stud_ID : ℕ
  exam_1 : ℚ
  exam_2 : ℚ
  exam_3 : ℚ
  notes : ℕ
  letter_grade : ℕ
  noisy_letter_grade : ℕ
deriving DecidableEq

/-- Embedded from the notebook:
`train_data = df_train.drop(['stud_ID', 'letter_grade', 'noisy_letter_grade'], axis=1)` —
the features handed to the model are the exam scores and the notes column
only. -/
def train_data (df : List StudentRow) : List (ℚ × ℚ × ℚ × ℕ) :=
  df.map (fun r => (r.exam_1, r.exam_2, r.exam_3, r.notes))

/-- Embedded from the notebook: `train_labels = df_train['noisy_letter_grade']`. -/
def train_labels (df : List StudentRow) : List ℕ :=
  df.map (fun r => r.noisy_letter_grade)

/-- Embedded from the notebook:
`pred_probs = cross_val_predict(model, train_data, train_labels, method='predict_proba')`.
The abstract classifier `C` is fitted on the feature/label pairs of a fold's
training indices and predicts a probability row from an example's features. -/
def pred_probs (C : List ((ℚ × ℚ × ℚ × ℕ) × ℕ) → (ℚ × ℚ × ℚ × ℕ) → List ℚ)
    (df : List StudentRow) (F : ℕ) : List (List ℚ) :=
  (cross_val_predict
      (fun ts i =>
        C (ts.map (fun j => ((train_data df).getD j (0, 0, 0, 0), (train_labels df).getD j 0)))
          ((train_data df).getD i (0, 0, 0, 0)))
      (train_data df).length F).map (fun o => o.getD [])

/-- Embedded from the notebook:
`issue_idx = find_label_issues(train_labels, pred_probs, return_indices_ranked_by='self_confidence')`. -/
def issue_idx (C : List ((ℚ × ℚ × ℚ × ℕ) × ℕ) → (ℚ × ℚ × ℚ × ℕ) → List ℚ)
    (df : List StudentRow) (F : ℕ) (margin : ℚ) (k : ℕ) : List ℕ :=
  find_label_issues (train_labels df) (pred_probs C df F) margin k

/-- Embedded from the notebook: `train_data_cl = df_train.drop(issue_idx)` —
the rows whose (positional) index is flagged are removed before retraining. -/
def train_data_cl (df : List StudentRow) (idxs : List ℕ) : List StudentRow :=
  (df.enum.filter (fun p => decide (p.1 ∉ idxs))).map Prod.snd

/-! ## Helper lemmas about the scorer -/

theorem flagged_iff (labels : List ℕ) (probs : List (List ℚ)) (margin : ℚ) (k i : ℕ) :
    flagged labels probs margin k i = true ↔
      selfConf labels probs i < classThreshold labels probs margin (labels.getD i 0) ∧
        ∃ j, j < k ∧ j ≠ labels.getD i 0 ∧
          selfConf labels probs i < (probs.getD i []).getD j 0 := by
  simp only [flagged, Bool.and_eq_true, decide_eq_true_eq, List.any_eq_true, List.mem_range,
    selfConf]

theorem mem_find_label_issues (labels : List ℕ) (probs : List (List ℚ)) (margin : ℚ)
    (k i : ℕ) :
    i ∈ find_label_issues labels probs margin k ↔
      i < labels.length ∧ flagged labels probs margin k i = true := by
  rw [find_label_issues, List.mem_insertionSort, issueIndices, List.mem_filter,
    List.mem_range]


theorem nodup_find_label_issues (labels : List ℕ) (probs : List (List ℚ)) (margin : ℚ)
    (k : ℕ) : (find_label_issues labels probs margin k).Nodup := by
  have hbase : (issueIndices labels probs margin k).Nodup :=
    (List.nodup_range _).filter _
  exact ((List.perm_insertionSort _ _).nodup_iff).mpr hbase

theorem oneHot_getD (k c j : ℕ) (hj : j < k) :
    (oneHot k c).getD j 0 = if j = c then 1 else 0 := by
  simp [oneHot, List.getD_eq_getElem?_getD, List.getElem?_map, List.getElem?_range hj]

theorem oneHot_getD_nonneg (k c j : ℕ) : 0 ≤ (oneHot k c).getD j 0 := by
  rcases lt_or_ge j k with hj | hj
  · rw [oneHot_getD k c j hj]
    split_ifs <;> norm_num
  · rw [List.getD_eq_default]
    simp [oneHot, hj]

/-- Claim C1: an example `i` of the training set is flagged (appears in the
issue list) exactly when (a) its self-confidence is strictly below its observed
class's threshold — the mean self-confidence of that class minus the margin —
and (b) some class other than the observed label receives a strictly higher
predicted probability; in particular, when every other class's probability is
at most the observed class's (ties included), `i` is not flagged. -/
theorem claim_C1 (labels : List ℕ) (probs : List (List ℚ)) (margin : ℚ) (k i : ℕ)
    (h : i < labels.length) :
    (i ∈ find_label_issues labels probs margin k ↔
        selfConf labels probs i < classThreshold labels probs margin (labels.getD i 0) ∧
          ∃ j, j < k ∧ j ≠ labels.getD i 0 ∧
            selfConf labels probs i < (probs.getD i []).getD j 0) ∧
      ((∀ j, j < k → j ≠ labels.getD i 0 →
          (probs.getD i []).getD j 0 ≤ selfConf labels probs i) →
        i ∉ find_label_issues labels probs margin k) := by
  constructor
  · rw [mem_find_label_issues, flagged_iff]
    exact and_iff_right h
  · intro hle hmem
    rw [mem_find_label_issues, flagged_iff] at hmem
    obtain ⟨-, -, j, hj, hne, hlt⟩ := hmem
    exact absurd hlt (not_lt.mpr (hle j hj hne))

theorem claim_C1_witness :
    1 < ([0, 0, 1] : List ℕ).length ∧
      1 ∈ find_label_issues [0, 0, 1] [[9/10, 1/10], [2/10, 8/10], [1/10, 9/10]] 0 2 :=
  ⟨by decide,
    (claim_C1 [0, 0, 1] [[9/10, 1/10], [2/10, 8/10], [1/10, 9/10]] 0 2 1 (by decide)).1.mpr
      ⟨by decide!, 1, by decide, by decide, by decide!⟩⟩

/-- Claim C3: the ranked issue list contains exactly the flagged examples and,
for any two entries, the earlier entry's self-confidence is at most the later
entry's, with equal-score entries appearing in increasing index order. -/
theorem claim_C3 (labels : List ℕ) (probs : List (List ℚ)) (margin : ℚ) (k : ℕ) :
    (∀ i, i ∈ find_label_issues labels probs margin k ↔
        i < labels.length ∧ flagged labels probs margin k i = true) ∧
      (find_label_issues labels probs margin k).Pairwise
        (fun a b => selfConf labels probs a ≤ selfConf labels probs b ∧
          (selfConf labels probs a = selfConf labels probs b → a < b)) := by
  refine ⟨fun i => mem_find_label_issues labels probs margin k i, ?_⟩
  have hsorted : (find_label_issues labels probs margin k).Pairwise (rankLe labels probs) :=
    List.sorted_insertionSort _ _
  have hnodup : (find_label_issues labels probs margin k).Pairwise (fun a b => a ≠ b) :=
    nodup_find_label_issues labels probs margin k
  refine (hsorted.and hnodup).imp ?_
  rintro a b ⟨hr, hne⟩
  rcases hr with hlt | ⟨heq, hle⟩
  · exact ⟨hlt.le, fun heq => absurd (heq ▸ hlt) (lt_irrefl _)⟩
  · exact ⟨heq.le, fun _ => lt_of_le_of_ne hle hne⟩

/-- Claim C4: an example whose observed label receives the strictly highest
predicted probability in its row is never flagged and never appears in the
ranked issue list. -/
theorem claim_C4 (labels : List ℕ) (probs : List (List ℚ)) (margin : ℚ) (k i : ℕ)
    (h : ∀ j, j < k → j ≠ labels.getD i 0 →
      (probs.getD i []).getD j 0 < selfConf labels probs i) :
    i ∉ find_label_issues labels probs margin k := by
  intro hmem
  rw [mem_find_label_issues, flagged_iff] at hmem
  obtain ⟨-, -, j, hj, hne, hlt⟩ := hmem
  exact absurd hlt (not_lt.mpr (h j hj hne).le)

theorem claim_C4_witness :
    (∀ j, j < 2 → j ≠ ([0] : List ℕ).getD 0 0 →
        (([[1, 0]] : List (List ℚ)).getD 0 []).getD j 0 < selfConf [0] [[1, 0]] 0) ∧
      0 ∉ find_label_issues [0] [[1, 0]] 0 2 :=
  ⟨by decide!, claim_C4 [0] [[1, 0]] 0 2 0 (by decide!)⟩

/-- Claim C8: on a dataset whose probability matrix puts probability `1` on
every example's observed label, the scorer flags nothing and the ranked issue
list is empty. -/
theorem claim_C8 (labels : List ℕ) (probs : List (List ℚ)) (margin : ℚ) (k : ℕ)
    (h : ∀ i, i < labels.length → probs.getD i [] = oneHot k (labels.getD i 0)) :
    find_label_issues labels probs margin k = [] := by
  have hempty : issueIndices labels probs margin k = [] := by
    rw [issueIndices, List.filter_eq_nil_iff]
    intro i hi hflag
    rw [List.mem_range] at hi
    rw [flagged_iff] at hflag
    obtain ⟨-, j, hj, hne, hlt⟩ := hflag
    rw [h i hi, oneHot_getD k _ j hj, if_neg hne] at hlt
    have hnn : 0 ≤ selfConf labels probs i := by
      rw [selfConf, h i hi]
      exact oneHot_getD_nonneg _ _ _
    exact absurd (hlt.trans_le hnn) (lt_irrefl _)
  rw [find_label_issues, hempty]
  rfl

theorem claim_C8_witness :
    (∀ i, i < ([0, 1] : List ℕ).length →
        ([[1, 0], [0, 1]] : List (List ℚ)).getD i [] = oneHot 2 (([0, 1] : List ℕ).getD i 0)) ∧
      find_label_issues [0, 1] [[1, 0], [0, 1]] 7 2 = [] :=
  ⟨by decide!, claim_C8 [0, 1] [[1, 0], [0, 1]] 7 2 (by decide!)⟩

/-! ## Helper lemmas about the estimator -/

theorem mem_foldMembers (n F f i : ℕ) :
    i ∈ foldMembers n F f ↔ i < n ∧ i % F = f := by
  simp [foldMembers, List.mem_filter, List.mem_range]

theorem mem_trainIdx (n F f i : ℕ) :
    i ∈ trainIdx n F f ↔ i < n ∧ i % F ≠ f := by
  simp [trainIdx, List.mem_filter, List.mem_range]

theorem writeFoldRows_cons (v : ℕ → List ℚ) (j : ℕ) (js : List ℕ)
    (m : List (Option (List ℚ))) :
    writeFoldRows v (j :: js) m = writeFoldRows v js (m.set j (some (v j))) :=
  rfl

theorem writeFoldRows_length (v : ℕ → List ℚ) (members : List ℕ)
    (m : List (Option (List ℚ))) : (writeFoldRows v members m).length = m.length := by
  induction members generalizing m with
  | nil => rfl
  | cons j js ih =>
    rw [writeFoldRows_cons, ih]
    simp

theorem writeFoldRows_getElem? (v : ℕ → List ℚ) (members : List ℕ)
    (m : List (Option (List ℚ))) (i : ℕ) (hi : i < m.length) :
    (writeFoldRows v members m)[i]? =
      if i ∈ members then some (some (v i)) else m[i]? := by
  induction members generalizing m with
  | nil => simp [writeFoldRows]
  | cons j js ih =>
    rw [writeFoldRows_cons]
    rw [ih (m.set j (some (v j))) (by simpa using hi)]
    by_cases h1 : i ∈ js
    · simp [h1]
    · by_cases h2 : i = j
      · subst h2
        simp [h1, List.getElem?_set_self hi]
      · simp [h1, h2, List.getElem?_set_ne (fun h => h2 h.symm)]

theorem cross_val_predict_foldl_getElem? (C : List ℕ → ℕ → List ℚ) (n F : ℕ) (i : ℕ)
    (hi : i < n) (G : List ℕ) :
    ∀ m : List (Option (List ℚ)), m.length = n →
      (G.foldl (fun m f => writeFoldRows (C (trainIdx n F f)) (foldMembers n F f) m) m)[i]? =
        if i % F ∈ G then some (some (C (trainIdx n F (i % F)) i)) else m[i]? := by
  induction G with
  | nil => intro m _; simp
  | cons f fs ih =>
    intro m hm
    rw [List.foldl_cons,
      ih _ (by rw [writeFoldRows_length]; exact hm),
      writeFoldRows_getElem? _ _ _ _ (by rw [hm]; exact hi)]
    by_cases h1 : i % F ∈ fs
    · simp [h1]
    · by_cases h2 : i % F = f
      · have hmem : i ∈ foldMembers n F f := (mem_foldMembers n F f i).mpr ⟨hi, h2⟩
        simp [h1, h2, hmem]
      · have hmem : i ∉ foldMembers n F f := by
          rw [mem_foldMembers]
          rintro ⟨-, h⟩
          exact h2 h
        simp [h1, h2, hmem]

theorem cross_val_predict_getElem? (C : List ℕ → ℕ → List ℚ) (n F : ℕ) (hF : 0 < F)
    (i : ℕ) (hi : i < n) :
    (cross_val_predict C n F)[i]? = some (some (C (trainIdx n F (i % F)) i)) := by
  rw [cross_val_predict,
    cross_val_predict_foldl_getElem? C n F i hi (List.range F) _ (List.length_replicate _ _)]
  have : i % F ∈ List.range F := List.mem_range.mpr (Nat.mod_lt _ hF)
  simp [this]

/-- Claim C2: the estimator's folds are pairwise disjoint and exhaustive over
the `n` example indices, index `i` belongs exactly to fold `i % F`, and row `i`
of the output matrix is written (exactly once) by the classifier instance
trained on `trainIdx n F (i % F)`, a training set that excludes `i` itself. -/
theorem claim_C2 (C : List ℕ → ℕ → List ℚ) (n F : ℕ) (hF : 0 < F) (i : ℕ) (hi : i < n) :
    (cross_val_predict C n F)[i]? = some (some (C (trainIdx n F (i % F)) i)) ∧
      i ∉ trainIdx n F (i % F) ∧
      (∀ f g, f ≠ g → ∀ j, j ∈ foldMembers n F f → j ∉ foldMembers n F g) ∧
      (i % F < F ∧ i ∈ foldMembers n F (i % F)) ∧
      (∀ f, i ∈ foldMembers n F f → f = i % F) := by
  refine ⟨cross_val_predict_getElem? C n F hF i hi, ?_, ?_, ?_, ?_⟩
  · rw [mem_trainIdx]
    rintro ⟨-, h⟩
    exact h rfl
  · intro f g hfg j hjf hjg
    rw [mem_foldMembers] at hjf hjg
    exact hfg (hjf.2.symm.trans hjg.2)
  · exact ⟨Nat.mod_lt _ hF, (mem_foldMembers n F _ i).mpr ⟨hi, rfl⟩⟩
  · intro f hf
    exact ((mem_foldMembers n F f i).mp hf).2.symm

theorem claim_C2_witness :
    0 < 2 ∧ 1 < 4 ∧
      (cross_val_predict (fun _ _ => ([] : List ℚ)) 4 2)[1]? = some (some []) ∧
        1 ∉ trainIdx 4 2 (1 % 2) :=
  ⟨by decide, by decide,
    (claim_C2 (fun _ _ => ([] : List ℚ)) 4 2 (by decide) 1 (by decide)).1,
    (claim_C2 (fun _ _ => ([] : List ℚ)) 4 2 (by decide) 1 (by decide)).2.1⟩

theorem cross_val_predict_folds_none (Cfit : List ℕ → Option (ℕ → List ℚ)) (n F : ℕ)
    (fs : List ℕ) (f : ℕ) (hf : f ∈ fs) (hfail : Cfit (trainIdx n F f) = none) :
    ∀ m, cross_val_predict_folds Cfit n F fs m = none := by
  induction fs with
  | nil => cases hf
  | cons g gs ih =>
    intro m
    cases hC : Cfit (trainIdx n F g) with
    | none => simp [cross_val_predict_folds, hC]
    | some mdl =>
      rcases List.mem_cons.mp hf with hfg | hmem
      · subst hfg
        rw [hC] at hfail
        cases hfail
      · simp only [cross_val_predict_folds, hC]
        exact ih hmem _

theorem cross_val_predict_folds_populated (Cfit : List ℕ → Option (ℕ → List ℚ)) (n F : ℕ)
    (fs : List ℕ) :
    ∀ m m', m.length = n → cross_val_predict_folds Cfit n F fs m = some m' →
      m'.length = n ∧ ∀ i, i < n →
        (i % F ∈ fs ∨ ∃ row, m[i]? = some (some row)) →
          ∃ row, m'[i]? = some (some row) := by
  induction fs with
  | nil =>
    intro m m' hm hsome
    obtain rfl : m = m' := by simpa [cross_val_predict_folds] using hsome
    refine ⟨hm, fun i hi hcase => ?_⟩
    rcases hcase with hmem | hrow
    · cases hmem
    · exact hrow
  | cons g gs ih =>
    intro m m' hm hsome
    cases hC : Cfit (trainIdx n F g) with
    | none => simp [cross_val_predict_folds, hC] at hsome
    | some mdl =>
      simp only [cross_val_predict_folds, hC] at hsome
      obtain ⟨hlen, hpop⟩ :=
        ih (writeFoldRows mdl (foldMembers n F g) m) m'
          (by rw [writeFoldRows_length]; exact hm) hsome
      refine ⟨hlen, fun i hi hcase => ?_⟩
      refine hpop i hi ?_
      have hwrite := writeFoldRows_getElem? mdl (foldMembers n F g) m i (by rw [hm]; exact hi)
      rcases hcase with hmem | hrow
      · rcases List.mem_cons.mp hmem with hg | hgs
        · refine Or.inr ⟨mdl i, ?_⟩
          rw [hwrite, if_pos ((mem_foldMembers n F g i).mpr ⟨hi, hg⟩)]
        · exact Or.inl hgs
      · refine Or.inr ?_
        rw [hwrite]
        by_cases hmemb : i ∈ foldMembers n F g
        · exact ⟨mdl i, by rw [if_pos hmemb]⟩
        · obtain ⟨row, hrow⟩ := hrow
          exact ⟨row, by rw [if_neg hmemb]; exact hrow⟩

theorem validRow_iff (k : ℕ) (tol : ℚ) (row : List ℚ) :
    validRow k tol row = true ↔
      row.length = k ∧ (∀ p ∈ row, 0 ≤ p) ∧ |row.sum - 1| ≤ tol := by
  simp only [validRow, Bool.and_eq_true, decide_eq_true_eq, List.all_eq_true]
  tauto

/-- Claim C5: with fewer than 2 examples or fewer than 2 folds, the estimator
signals a configuration error; the outcome is the same for every classifier
factory (so no training is performed) and is never an `ok` result. -/
theorem claim_C5 (C : List ℕ → ℕ → List ℚ) (n F : ℕ) (h : n < 2 ∨ F < 2) :
    cross_val_predict_checked C n F
        = Except.error (if n < 2 then ConfigError.tooFewExamples else ConfigError.tooFewFolds) ∧
      (∀ C', cross_val_predict_checked C' n F = cross_val_predict_checked C n F) ∧
      ∀ l, cross_val_predict_checked C n F ≠ Except.ok l := by
  by_cases hn : n < 2
  · simp [cross_val_predict_checked, hn]
  · have hFlt : F < 2 := h.resolve_left hn
    simp [cross_val_predict_checked, hn, hFlt]

theorem claim_C5_witness :
    ((1 : ℕ) < 2 ∨ (5 : ℕ) < 2) ∧
      cross_val_predict_checked (fun _ _ => ([] : List ℚ)) 1 5
        = Except.error ConfigError.tooFewExamples :=
  ⟨Or.inl (by decide), by
    have h := (claim_C5 (fun _ _ => ([] : List ℚ)) 1 5 (Or.inl (by decide))).1
    simpa using h⟩

/-- Claim C6: if the classifier factory fails on any fold, the whole estimation
returns the failure (no retries); a successful estimation is never partial —
every one of the `n` rows of the returned matrix is populated. -/
theorem claim_C6 (Cfit : List ℕ → Option (ℕ → List ℚ)) (n F : ℕ) (hF : 0 < F) :
    ((∃ f, f < F ∧ Cfit (trainIdx n F f) = none) →
        cross_val_predict_fallible Cfit n F = none) ∧
      ∀ m, cross_val_predict_fallible Cfit n F = some m →
        m.length = n ∧ ∀ i, i < n → ∃ row, m[i]? = some (some row) := by
  constructor
  · rintro ⟨f, hf, hfail⟩
    exact cross_val_predict_folds_none Cfit n F _ f (List.mem_range.mpr hf) hfail _
  · intro m hm
    obtain ⟨hlen, hpop⟩ :=
      cross_val_predict_folds_populated Cfit n F (List.range F) _ m
        (List.length_replicate _ _) hm
    exact ⟨hlen, fun i hi =>
      hpop i hi (Or.inl (List.mem_range.mpr (Nat.mod_lt _ hF)))⟩

theorem claim_C6_witness :
    (0 : ℕ) < 2 ∧ cross_val_predict_fallible (fun _ => none) 2 2 = none :=
  ⟨by decide, (claim_C6 (fun _ => none) 2 2 (by decide)).1 ⟨0, by decide, rfl⟩⟩

/-- Claim C7: a probability matrix is consumed by the scorer only when every
row has `k` non-negative entries summing to 1 within tolerance; a matrix with a
violating row is rejected as a classifier contract violation, never silently
used. -/
theorem claim_C7 (labels : List ℕ) (probs : List (List ℚ)) (margin : ℚ) (k : ℕ) (tol : ℚ) :
    (∀ l, find_label_issues_checked labels probs margin k tol = Except.ok l →
        l = find_label_issues labels probs margin k ∧
          ∀ row ∈ probs, row.length = k ∧ (∀ p ∈ row, 0 ≤ p) ∧ |row.sum - 1| ≤ tol) ∧
      ((∃ row ∈ probs, ¬(row.length = k ∧ (∀ p ∈ row, 0 ≤ p) ∧ |row.sum - 1| ≤ tol)) →
        find_label_issues_checked labels probs margin k tol
          = Except.error ScorerError.invalidRow) := by
  constructor
  · intro l hl
    by_cases hall : probs.all (validRow k tol) = true
    · refine ⟨?_, fun row hrow => (validRow_iff k tol row).mp
        (List.all_eq_true.mp hall row hrow)⟩
      rw [find_label_issues_checked, if_pos hall] at hl
      exact (Except.ok.inj hl).symm
    · rw [find_label_issues_checked, if_neg hall] at hl
      cases hl
  · rintro ⟨row, hrow, hbad⟩
    have hall : ¬ probs.all (validRow k tol) = true := by
      intro hall
      exact hbad ((validRow_iff k tol row).mp (List.all_eq_true.mp hall row hrow))
    rw [find_label_issues_checked, if_neg hall]

theorem claim_C7_witness :
    find_label_issues_checked [0] [[1/2]] 0 1 0 = Except.error ScorerError.invalidRow :=
  (claim_C7 [0] [[1/2]] 0 1 0).2 ⟨[1/2], by decide!, by decide!⟩

/-! ## Helper lemmas about the notebook's data handling -/

theorem train_data_labels_eq_of_agree (df1 df2 : List StudentRow)
    (h : List.Forall₂ (fun r1 r2 => r1.stud_ID = r2.stud_ID ∧ r1.exam_1 = r2.exam_1 ∧
        r1.exam_2 = r2.exam_2 ∧ r1.exam_3 = r2.exam_3 ∧ r1.notes = r2.notes ∧
        r1.noisy_letter_grade = r2.noisy_letter_grade) df1 df2) :
    train_data df1 = train_data df2 ∧ train_labels df1 = train_labels df2 := by
  induction h with
  | nil => exact ⟨rfl, rfl⟩
  | cons hr hrest ih =>
    obtain ⟨-, h2, h3, h4, h5, h6⟩ := hr
    constructor
    · have hmap := ih.1
      simp only [train_data, List.map_cons] at hmap ⊢
      rw [h2, h3, h4, h5, hmap]
    · have hmap := ih.2
      simp only [train_labels, List.map_cons] at hmap ⊢
      rw [h6, hmap]

theorem filter_mem_length (n : ℕ) (s : List ℕ) (hnodup : s.Nodup) (hlt : ∀ x ∈ s, x < n) :
    ((List.range n).filter (fun i => decide (i ∈ s))).length = s.length := by
  have hperm : List.Perm ((List.range n).filter (fun i => decide (i ∈ s))) s := by
    rw [List.perm_iff_count]
    intro a
    by_cases ha : a ∈ s
    · have h1 : List.count a ((List.range n).filter (fun i => decide (i ∈ s)))
          = List.count a (List.range n) := by
        apply List.count_filter
        simpa using ha
      rw [h1, List.count_eq_one_of_mem (List.nodup_range n) (List.mem_range.mpr (hlt a ha)),
        List.count_eq_one_of_mem hnodup ha]
    · rw [List.count_eq_zero_of_not_mem ha, List.count_eq_zero_of_not_mem]
      intro hmem
      exact ha (by simpa using (List.mem_filter.mp hmem).2)
  exact hperm.length_eq

theorem train_data_cl_length (df : List StudentRow) (s : List ℕ) (hnodup : s.Nodup)
    (hlt : ∀ x ∈ s, x < df.length) :
    (train_data_cl df s).length = df.length - s.length := by
  rw [train_data_cl, List.length_map, ← List.countP_eq_length_filter]
  have h1 : List.countP (fun p => decide (p.1 ∉ s)) df.enum
      = List.countP (fun i => decide (i ∉ s)) (List.range df.length) := by
    rw [← List.enum_map_fst df, List.countP_map]
    rfl
  rw [h1, List.countP_eq_length_filter]
  have h2 := @List.length_eq_length_filter_add ℕ (List.range df.length)
    (fun i => decide (i ∈ s))
  rw [List.length_range, filter_mem_length df.length s hnodup hlt] at h2
  have h3 : (List.range df.length).filter (fun i => !decide (i ∈ s))
      = (List.range df.length).filter (fun i => decide (i ∉ s)) := by
    apply List.filter_congr
    intro i _
    simp [decide_not]
  rw [h3] at h2
  omega

/-- Claim C9: the detection pipeline never reads the ground-truth
`letter_grade` column — for any two training frames that agree on the features
and the noisy labels (and may differ arbitrarily in `letter_grade`), the
out-of-sample probability matrix and the returned issue-index list are
identical. -/
theorem claim_C9 (C : List ((ℚ × ℚ × ℚ × ℕ) × ℕ) → (ℚ × ℚ × ℚ × ℕ) → List ℚ)
    (df1 df2 : List StudentRow) (F : ℕ) (margin : ℚ) (k : ℕ)
    (h : List.Forall₂ (fun r1 r2 => r1.stud_ID = r2.stud_ID ∧ r1.exam_1 = r2.exam_1 ∧
        r1.exam_2 = r2.exam_2 ∧ r1.exam_3 = r2.exam_3 ∧ r1.notes = r2.notes ∧
        r1.noisy_letter_grade = r2.noisy_letter_grade) df1 df2) :
    pred_probs C df1 F = pred_probs C df2 F ∧
      issue_idx C df1 F margin k = issue_idx C df2 F margin k := by
  obtain ⟨hd, hl⟩ := train_data_labels_eq_of_agree df1 df2 h
  have hp : pred_probs C df1 F = pred_probs C df2 F := by
    simp only [pred_probs, hd, hl]
  exact ⟨hp, by simp only [issue_idx, hl, hp]⟩

theorem claim_C9_witness :
    issue_idx (fun _ _ => []) [⟨1, 90, 80, 70, 0, 2, 3⟩] 2 0 5
      = issue_idx (fun _ _ => []) [⟨1, 90, 80, 70, 0, 4, 3⟩] 2 0 5 :=
  (claim_C9 (fun _ _ => []) [⟨1, 90, 80, 70, 0, 2, 3⟩] [⟨1, 90, 80, 70, 0, 4, 3⟩] 2 0 5
      (List.Forall₂.cons ⟨rfl, rfl, rfl, rfl, rfl, rfl⟩ List.Forall₂.nil)).2

/-- Claim C10: every index in the returned issue list is a valid position of
the training frame, no index appears twice, and dropping the flagged rows
leaves exactly `N` minus the number of flagged examples rows for retraining. -/
theorem claim_C10 (labels : List ℕ) (probs : List (List ℚ)) (margin : ℚ) (k : ℕ)
    (df : List StudentRow) (h : df.length = labels.length) :
    (∀ i ∈ find_label_issues labels probs margin k, i < labels.length) ∧
      (find_label_issues labels probs margin k).Nodup ∧
      (train_data_cl df (find_label_issues labels probs margin k)).length
        = labels.length - (find_label_issues labels probs margin k).length := by
  have hmem : ∀ i ∈ find_label_issues labels probs margin k, i < labels.length :=
    fun i hi => ((mem_find_label_issues labels probs margin k i).mp hi).1
  have hnodup := nodup_find_label_issues labels probs margin k
  refine ⟨hmem, hnodup, ?_⟩
  rw [train_data_cl_length df _ hnodup (fun x hx => h ▸ hmem x hx), h]

theorem claim_C10_witness :
    ([⟨0, 0, 0, 0, 0, 0, 0⟩] : List StudentRow).length = ([0] : List ℕ).length ∧
      (train_data_cl [⟨0, 0, 0, 0, 0, 0, 0⟩] (find_label_issues [0] [[1]] 0 1)).length
        = ([0] : List ℕ).length - (find_label_issues [0] [[1]] 0 1).length :=
  ⟨rfl, (claim_C10 [0] [[1]] 0 1 [⟨0, 0, 0, 0, 0, 0, 0⟩] rfl).2.2⟩
